import Mathlib

/-!
# Verification of `pyAeroTools/aero/airfoil.py`

Shallow embedding of the function `naca_four_digit_series` from
`src/pyAeroTools/aero/airfoil.py` and proofs about it.

Modelling conventions:
* Python floats are modelled exactly: the designation-derived parameters, the
  x stations and the camber-line values are rational (`ℚ`), and the final
  surface coordinates, which involve `sqrt`, `arctan`, `sin` and `cos`, live
  in `ℝ`.
* Fallible Python operations are modelled with `Except`:
  - the `assert len(naca_number) == 4` raises with a message carrying the
    given digit count (`PyError.invalidDesignation`);
  - `int(·)` on a non-numeric string raises `ValueError`
    (`PyError.valueError`);
  - float division by zero raises `ZeroDivisionError`
    (`PyError.zeroDivisionError`).
* `str(·)` on an integer designation is decimal rendering without padding,
  with a leading `'-'` for negative input.
* `np.linspace(0., chord, num=n)` is `n` evenly spaced samples from `0` to
  `chord`, both endpoints included (`[0]` when `n = 1`, `[]` when `n = 0`).
* `np.arctan2(d, 1)` is `Real.arctan d`.
-/

/-- The runtime errors the Python function can raise: the designation-length
assertion (whose message carries the number of digits given), `ValueError`
from `int(·)` on a non-numeric string, and `ZeroDivisionError` from the
camber-line divisions. -/
inductive PyError : Type
  | invalidDesignation (digitsGiven : ℕ)
  | valueError
  | zeroDivisionError
  deriving DecidableEq

/-- One output row of the airfoil array:
`[x_upper, y_upper, x_lower, y_lower]`. -/
structure SurfPoint : Type where
  xUpper : ℝ
  yUpper : ℝ
  xLower : ℝ
  yLower : ℝ
  deriving Inhabited

/-- The all-zero surface row, used as a default when indexing. -/
def zeroPoint : SurfPoint := ⟨0, 0, 0, 0⟩

/-- Numeric value of a decimal digit character (`int(c)` for `'0' ≤ c ≤ '9'`). -/
def charVal (c : Char) : ℕ := c.toNat - 48

/-- Decimal value of a list of digit characters, most significant first. -/
def strVal (cs : List Char) : ℕ := cs.foldl (fun a c => 10 * a + charVal c) 0

/-- Python `int(s)` on the (sub)strings the source feeds it: an optional
leading `'-'` followed by at least one decimal digit parses to its decimal
value; anything else raises `ValueError`. -/
def intOfChars (cs : List Char) : Except PyError ℤ :=
  if cs.head? = some '-' then
    if cs.tail ≠ [] ∧ cs.tail.all Char.isDigit then
      .ok (-(strVal cs.tail : ℤ))
    else .error .valueError
  else
    if cs ≠ [] ∧ cs.all Char.isDigit then
      .ok (strVal cs : ℤ)
    else .error .valueError

/-- Decimal digit characters of a natural number, most significant first,
without padding (`str(k)` for `k ≥ 0`). -/
def natToChars (k : ℕ) : List Char :=
  if k = 0 then ['0']
  else (Nat.digits 10 k).reverse.map (fun d => Char.ofNat (48 + d))

/-- Python `str(·)` on an integer: decimal rendering, `'-'`-prefixed when
negative. -/
def intToString (k : ℤ) : String :=
  if k < 0 then ⟨'-' :: natToChars k.natAbs⟩ else ⟨natToChars k.natAbs⟩

/-- The designation argument `naca_number`: Python `int or str`. -/
inductive NacaInput : Type
  | int (k : ℤ)
  | str (s : String)

/-- The input normalization at the top of the function:
`if isinstance(naca_number, int): naca_number = str(naca_number)`. -/
def normalizeInput : NacaInput → String
  | .int k => intToString k
  | .str s => s

/-- `np.linspace(0., chord, num=n)`: `n` evenly spaced stations from `0` to
`chord` inclusive. For `n = 1` numpy returns `[0.]`, and the formula below
gives `chord * 0 / 0 = 0`; for `n = 0` the list is empty. -/
def linspace (chord : ℚ) (n : ℕ) : List ℚ :=
  (List.range n).map fun (i : ℕ) => chord * (i : ℚ) / ((n : ℚ) - 1)

/-- Body of the mean-camber-line loop at one station:
`yc_temp = m/p**2 * (2*p*x - x**2)` when `x < p`, else
`yc_temp = m/(1-p)**2 * ((1-2*p) + 2*p*x - x**2)`; a zero denominator
raises `ZeroDivisionError`. -/
def yc_at (m p x : ℚ) : Except PyError ℚ :=
  if x < p then
    if p ^ 2 = 0 then .error .zeroDivisionError
    else .ok (m / p ^ 2 * (2 * p * x - x ^ 2))
  else
    if (1 - p) ^ 2 = 0 then .error .zeroDivisionError
    else .ok (m / (1 - p) ^ 2 * ((1 - 2 * p) + 2 * p * x - x ^ 2))

/-- Body of the camber-slope loop at one station:
`dyc_dx_temp = m/p**2 * (2*p - 2*x)` when `x < p`, else
`dyc_dx_temp = m/(1-p)**2 * (2*p - 2*x)`. -/
def dyc_at (m p x : ℚ) : Except PyError ℚ :=
  if x < p then
    if p ^ 2 = 0 then .error .zeroDivisionError
    else .ok (m / p ^ 2 * (2 * p - 2 * x))
  else
    if (1 - p) ^ 2 = 0 then .error .zeroDivisionError
    else .ok (m / (1 - p) ^ 2 * (2 * p - 2 * x))

/-- Value of the `x < p` camber branch, as a total function (used only to
describe runs on which `yc_at` did not raise). -/
def ycQ (m p x : ℚ) : ℚ :=
  if x < p then m / p ^ 2 * (2 * p * x - x ^ 2)
  else m / (1 - p) ^ 2 * ((1 - 2 * p) + 2 * p * x - x ^ 2)

/-- Total description of the camber slope on non-raising runs. -/
def dycQ (m p x : ℚ) : ℚ :=
  if x < p then m / p ^ 2 * (2 * p - 2 * x)
  else m / (1 - p) ^ 2 * (2 * p - 2 * x)

/-- Thickness half-distribution at one station:
`yt = t/0.2 * (0.2969*sqrt(x) - 0.1260*x - 0.3516*x**2 + 0.2843*x**3 -
0.1015*x**4)`. -/
noncomputable def yt_at (t x : ℚ) : ℝ :=
  (t : ℝ) / 0.2 * (0.2969 * Real.sqrt (x : ℝ) - 0.1260 * (x : ℝ)
    - 0.3516 * (x : ℝ) ^ 2 + 0.2843 * (x : ℝ) ^ 3 - 0.1015 * (x : ℝ) ^ 4)

/-- Surface assembly at one station:
`theta = arctan2(dyc_dx, 1)`, `x_upper = x - yt*sin(theta)`,
`y_upper = yc + yt*cos(theta)`, `x_lower = x + yt*sin(theta)`,
`y_lower = yc - yt*cos(theta)`. -/
noncomputable def mkPoint (t x yc dyc : ℚ) : SurfPoint :=
  let yt := yt_at t x
  let theta := Real.arctan (dyc : ℝ)
  { xUpper := (x : ℝ) - yt * Real.sin theta
    yUpper := (yc : ℝ) + yt * Real.cos theta
    xLower := (x : ℝ) + yt * Real.sin theta
    yLower := (yc : ℝ) - yt * Real.cos theta }

/-- The Python `for`-loops that append one computed value per station and
abort at the first raised error. -/
def mapExcept (f : ℚ → Except PyError ℚ) : List ℚ → Except PyError (List ℚ)
  | [] => .ok []
  | x :: xs => do
    let y ← f x
    let ys ← mapExcept f xs
    pure (y :: ys)

/-- The computation after input validation and parameter derivation:
stations, camber line, camber slope, thickness and surface assembly, in the
source's order. -/
noncomputable def computeAirfoil (m p t chord : ℚ) (n : ℕ) :
    Except PyError (List SurfPoint) := do
  let xs := linspace chord n
  let ycs ← mapExcept (yc_at m p) xs
  let dycs ← mapExcept (dyc_at m p) xs
  pure (List.zipWith (fun xy dyc => mkPoint t xy.1 xy.2 dyc) (xs.zip ycs) dycs)

/-- The whole function `naca_four_digit_series(naca_number, chord, num_points)`:
normalize the designation, assert it has four characters, parse
`m = int(s[0])/100*chord`, `p = int(s[1])/10*chord`,
`t = int(s[2:])/100*chord`, then run the coordinate computation. -/
noncomputable def naca_four_digit_series (input : NacaInput) (chord : ℚ)
    (num_points : ℕ) : Except PyError (List SurfPoint) :=
  match (normalizeInput input).data with
  | [c0, c1, c2, c3] => do
      let v0 ← intOfChars [c0]
      let v1 ← intOfChars [c1]
      let v23 ← intOfChars [c2, c3]
      computeAirfoil ((v0 : ℚ) / 100 * chord) ((v1 : ℚ) / 10 * chord)
        ((v23 : ℚ) / 100 * chord) chord num_points
  | _ => .error (.invalidDesignation (normalizeInput input).length)

/-- The rows of a run, empty when the run raised. -/
noncomputable def rowsOf (e : Except PyError (List SurfPoint)) :
    List SurfPoint := e.toOption.getD []

/-! ## Helper lemmas about the embedded operations -/

@[simp] lemma exceptBind_ok {ε : Type u} {α β : Type v} (a : α)
    (f : α → Except ε β) : (Except.ok a >>= f) = f a := rfl

@[simp] lemma exceptBind_error {ε : Type u} {α β : Type v} (e : ε)
    (f : α → Except ε β) :
    ((Except.error e : Except ε α) >>= f) = Except.error e := rfl

lemma isDigit_ne_dash {c : Char} (h : c.isDigit = true) : c ≠ '-' := by
  rintro rfl
  exact absurd h (by decide)

lemma intOfChars_digit1 {c : Char} (h : c.isDigit = true) :
    intOfChars [c] = .ok (charVal c : ℤ) := by
  simp [intOfChars, isDigit_ne_dash h, h, strVal]

lemma intOfChars_digit2 {c c' : Char} (h : c.isDigit = true)
    (h' : c'.isDigit = true) :
    intOfChars [c, c'] = .ok ((10 * charVal c + charVal c' : ℕ) : ℤ) := by
  simp [intOfChars, isDigit_ne_dash h, h, h', strVal]

lemma yc_at_eq_ok {p x : ℚ} (m : ℚ) (hx : 0 ≤ x) (hp : p ≠ 1) :
    yc_at m p x = .ok (ycQ m p x) := by
  unfold yc_at ycQ
  by_cases h : x < p
  · have hp2 : ¬p ^ 2 = 0 := pow_ne_zero 2 (ne_of_gt (lt_of_le_of_lt hx h))
    simp [h, hp2]
  · have hp2 : ¬(1 - p) ^ 2 = 0 := pow_ne_zero 2 (sub_ne_zero.mpr (Ne.symm hp))
    simp [h, hp2]

lemma dyc_at_eq_ok {p x : ℚ} (m : ℚ) (hx : 0 ≤ x) (hp : p ≠ 1) :
    dyc_at m p x = .ok (dycQ m p x) := by
  unfold dyc_at dycQ
  by_cases h : x < p
  · have hp2 : ¬p ^ 2 = 0 := pow_ne_zero 2 (ne_of_gt (lt_of_le_of_lt hx h))
    simp [h, hp2]
  · have hp2 : ¬(1 - p) ^ 2 = 0 := pow_ne_zero 2 (sub_ne_zero.mpr (Ne.symm hp))
    simp [h, hp2]

lemma ycQ_m_zero (p x : ℚ) : ycQ 0 p x = 0 := by
  unfold ycQ
  split <;> simp

lemma dycQ_m_zero (p x : ℚ) : dycQ 0 p x = 0 := by
  unfold dycQ
  split <;> simp

lemma mapExcept_eq_ok {f : ℚ → Except PyError ℚ} {g : ℚ → ℚ} :
    ∀ {xs : List ℚ}, (∀ x ∈ xs, f x = .ok (g x)) →
      mapExcept f xs = .ok (xs.map g)
  | [], _ => rfl
  | x :: xs, h => by
    have hx := h x (List.mem_cons_self x xs)
    have ht := mapExcept_eq_ok (fun y hy => h y (List.mem_cons_of_mem x hy))
    simp [mapExcept, hx, ht]

lemma mapExcept_cons_ok {f : ℚ → Except PyError ℚ} {x : ℚ} {xs ys : List ℚ}
    (h : mapExcept f (x :: xs) = .ok ys) :
    ∃ y ys2, f x = .ok y ∧ mapExcept f xs = .ok ys2 ∧ ys = y :: ys2 := by
  cases hfx : f x with
  | error e => simp [mapExcept, hfx] at h
  | ok y =>
    cases hrest : mapExcept f xs with
    | error e => simp [mapExcept, hfx, hrest] at h
    | ok ys2 =>
      refine ⟨y, ys2, rfl, rfl, ?_⟩
      simp [mapExcept, hfx, hrest] at h
      exact h.symm

lemma linspace_length (chord : ℚ) (n : ℕ) : (linspace chord n).length = n := by
  unfold linspace
  rw [List.length_map, List.length_range]

lemma linspace_nonneg {chord : ℚ} (hc : 0 ≤ chord) (n : ℕ) :
    ∀ x ∈ linspace chord n, 0 ≤ x := by
  intro x hx
  simp only [linspace, List.mem_map, List.mem_range] at hx
  obtain ⟨i, hi, rfl⟩ := hx
  have hn0 : n ≠ 0 := fun e => by omega
  have hn : (1 : ℚ) ≤ (n : ℚ) := by exact_mod_cast Nat.one_le_iff_ne_zero.mpr hn0
  exact div_nonneg (mul_nonneg hc (Nat.cast_nonneg i)) (by linarith)

lemma linspace_eq_cons (chord : ℚ) (k : ℕ) :
    ∃ rest, linspace chord (k + 1) = 0 :: rest := by
  refine ⟨((List.range k).map Nat.succ).map
    (fun (i : ℕ) => chord * (i : ℚ) / (((k + 1 : ℕ) : ℚ) - 1)), ?_⟩
  unfold linspace
  rw [List.range_succ_eq_map, List.map_cons]
  congr 1
  simp

lemma zipWith_zip_map {α β γ δ : Type} (F : α × β → γ → δ) (g : α → β)
    (h : α → γ) :
    ∀ xs : List α,
      List.zipWith F (xs.zip (xs.map g)) (xs.map h) =
        xs.map fun x => F (x, g x) (h x)
  | [] => rfl
  | x :: xs => by
    simp [List.zip_cons_cons, zipWith_zip_map F g h xs]

lemma computeAirfoil_run (m p t : ℚ) {chord : ℚ} (hc : 0 ≤ chord)
    (hp : p ≠ 1) (n : ℕ) :
    computeAirfoil m p t chord n =
      .ok ((linspace chord n).map
        fun x => mkPoint t x (ycQ m p x) (dycQ m p x)) := by
  have hyc : mapExcept (yc_at m p) (linspace chord n) =
      .ok ((linspace chord n).map (ycQ m p)) :=
    mapExcept_eq_ok fun x hx => yc_at_eq_ok m (linspace_nonneg hc n x hx) hp
  have hdyc : mapExcept (dyc_at m p) (linspace chord n) =
      .ok ((linspace chord n).map (dycQ m p)) :=
    mapExcept_eq_ok fun x hx => dyc_at_eq_ok m (linspace_nonneg hc n x hx) hp
  simp [computeAirfoil, hyc, hdyc,
    zipWith_zip_map (fun xy dyc => mkPoint t xy.1 xy.2 dyc) (ycQ m p) (dycQ m p)]

lemma computeAirfoil_ok_inv {m p t chord : ℚ} {n : ℕ} {rows : List SurfPoint}
    (h : computeAirfoil m p t chord n = .ok rows) :
    ∃ ycs dycs,
      mapExcept (yc_at m p) (linspace chord n) = .ok ycs ∧
      mapExcept (dyc_at m p) (linspace chord n) = .ok dycs ∧
      rows = List.zipWith (fun xy dyc => mkPoint t xy.1 xy.2 dyc)
        ((linspace chord n).zip ycs) dycs := by
  cases hyc : mapExcept (yc_at m p) (linspace chord n) with
  | error e => simp [computeAirfoil, hyc] at h
  | ok ycs =>
    cases hdyc : mapExcept (dyc_at m p) (linspace chord n) with
    | error e => simp [computeAirfoil, hyc, hdyc] at h
    | ok dycs =>
      refine ⟨ycs, dycs, rfl, rfl, ?_⟩
      simp [computeAirfoil, hyc, hdyc] at h
      exact h.symm

lemma naca_run_of_digits (input : NacaInput) (c0 c1 c2 c3 : Char)
    (hdata : (normalizeInput input).data = [c0, c1, c2, c3])
    (h0 : c0.isDigit = true) (h1 : c1.isDigit = true) (h2 : c2.isDigit = true)
    (h3 : c3.isDigit = true) (chord : ℚ) (n : ℕ) :
    naca_four_digit_series input chord n =
      computeAirfoil ((charVal c0 : ℚ) / 100 * chord)
        ((charVal c1 : ℚ) / 10 * chord)
        (((10 * charVal c2 + charVal c3 : ℕ) : ℚ) / 100 * chord) chord n := by
  unfold naca_four_digit_series
  rw [hdata]
  simp only [intOfChars_digit1 h0, intOfChars_digit1 h1,
    intOfChars_digit2 h2 h3, exceptBind_ok]
  push_cast
  rfl

lemma yt_at_x_zero (t : ℚ) : yt_at t 0 = 0 := by
  simp [yt_at]

lemma yt_at_t_zero (x : ℚ) : yt_at 0 x = 0 := by
  simp [yt_at]

lemma mkPoint_flat (t x : ℚ) :
    mkPoint t x 0 0 = ⟨(x : ℝ), yt_at t x, (x : ℝ), -(yt_at t x)⟩ := by
  simp [mkPoint, Real.arctan_zero, Real.sin_zero, Real.cos_zero]

lemma naca_len_ne_four (input : NacaInput) (chord : ℚ) (n : ℕ)
    (h : (normalizeInput input).length ≠ 4) :
    naca_four_digit_series input chord n =
      .error (.invalidDesignation (normalizeInput input).length) := by
  have hd : (normalizeInput input).data.length ≠ 4 := h
  unfold naca_four_digit_series
  split
  · next c0 c1 c2 c3 heq => simp [heq] at hd
  · rfl

lemma linspace_getD (chord : ℚ) {n i : ℕ} (h : i < n) :
    (linspace chord n).getD i 0 = chord * (i : ℚ) / ((n : ℚ) - 1) := by
  unfold linspace
  rw [List.getD_eq_getElem?_getD, List.getElem?_map, List.getElem?_range h]
  rfl

lemma yc_at_station_zero {m p y0 : ℚ} (h : yc_at m p 0 = .ok y0)
    (hmp : m = 0 ∨ 0 < p) : y0 = 0 := by
  unfold yc_at at h
  by_cases hp : (0 : ℚ) < p
  · have hp2 : ¬p ^ 2 = 0 := pow_ne_zero 2 (ne_of_gt hp)
    rw [if_pos hp, if_neg hp2] at h
    simp at h
    norm_num [← h]
  · rcases hmp with hm | hp'
    · subst hm
      rw [if_neg hp] at h
      by_cases hq : (1 - p) ^ 2 = 0
      · rw [if_pos hq] at h
        cases h
      · rw [if_neg hq] at h
        simp at h
        exact h.symm
    · exact absurd hp' hp

lemma charOfDigit_isDigit {d : ℕ} (hd : d < 10) :
    (Char.ofNat (48 + d)).isDigit = true := by
  interval_cases d <;> decide

lemma charVal_charOfDigit {d : ℕ} (hd : d < 10) :
    charVal (Char.ofNat (48 + d)) = d := by
  interval_cases d <;> decide

lemma naca_zero_camber_run (c2 c3 : Char) (h2 : c2.isDigit = true)
    (h3 : c3.isDigit = true) {chord : ℚ} (hc : 0 ≤ chord) (n : ℕ) :
    naca_four_digit_series (.str ⟨['0', '0', c2, c3]⟩) chord n =
      .ok ((linspace chord n).map fun (x : ℚ) =>
        ⟨(x : ℝ),
         yt_at (((10 * charVal c2 + charVal c3 : ℕ) : ℚ) / 100 * chord) x,
         (x : ℝ),
         -(yt_at (((10 * charVal c2 + charVal c3 : ℕ) : ℚ) / 100 * chord) x)⟩) := by
  rw [naca_run_of_digits (.str ⟨['0', '0', c2, c3]⟩) '0' '0' c2 c3 rfl
    (by decide) (by decide) h2 h3]
  norm_num [show charVal '0' = 0 from rfl]
  rw [computeAirfoil_run 0 0 _ hc (by norm_num) n]
  simp [ycQ_m_zero, dycQ_m_zero, mkPoint_flat]

lemma naca_0012_run {chord : ℚ} (hc : 0 ≤ chord) (n : ℕ) :
    naca_four_digit_series (.str "0012") chord n =
      .ok ((linspace chord n).map fun (x : ℚ) =>
        ⟨(x : ℝ), yt_at (12 / 100 * chord) x,
         (x : ℝ), -(yt_at (12 / 100 * chord) x)⟩) := by
  have h := naca_zero_camber_run '1' '2' (by decide) (by decide) hc n
  simpa [show charVal '1' = 1 from rfl, show charVal '2' = 2 from rfl,
    show (⟨['0', '0', '1', '2']⟩ : String) = "0012" from rfl] using h

lemma naca_0000_run {chord : ℚ} (hc : 0 ≤ chord) (n : ℕ) :
    naca_four_digit_series (.str "0000") chord n =
      .ok ((linspace chord n).map fun (x : ℚ) => ⟨(x : ℝ), 0, (x : ℝ), 0⟩) := by
  have h := naca_zero_camber_run '0' '0' (by decide) (by decide) hc n
  simpa [show charVal '0' = 0 from rfl, yt_at_t_zero,
    show (⟨['0', '0', '0', '0']⟩ : String) = "0000" from rfl] using h

lemma rowsOf_ok (rows : List SurfPoint) : rowsOf (.ok rows) = rows := rfl

lemma mkPoint_station_zero (t d : ℚ) : mkPoint t 0 0 d = zeroPoint := by
  simp [mkPoint, zeroPoint, yt_at_x_zero]

lemma linspace_two_smul (c : ℚ) (n : ℕ) :
    linspace (2 * c) n = (linspace c n).map (fun x => 2 * x) := by
  unfold linspace
  rw [List.map_map]
  refine List.map_congr_left fun i _ => ?_
  simp only [Function.comp]
  ring

/-! ## Claims -/

/-- C4: for every designation input whose normalized string form does not
have length exactly 4, the function fails with an `InvalidDesignation` error
carrying the offending digit count, before any coordinate computation. -/
theorem C4_invalid_length_reports_digit_count (input : NacaInput) (chord : ℚ)
    (n : ℕ) (h : (normalizeInput input).length ≠ 4) :
    naca_four_digit_series input chord n =
      .error (.invalidDesignation (normalizeInput input).length) :=
  naca_len_ne_four input chord n h

/-- Witness for C4 at the spec's own example `"123"`: three digits are
reported. -/
theorem C4_invalid_length_reports_digit_count_witness :
    ("123" : String).length ≠ 4 ∧
      naca_four_digit_series (.str "123") 1 50 =
        .error (.invalidDesignation 3) := by
  refine ⟨by decide, ?_⟩
  have h := C4_invalid_length_reports_digit_count (.str "123") 1 50 (by decide)
  rw [show (normalizeInput (.str "123")).length = 3 from by decide] at h
  exact h

/-- C5 counterexample: at `numPoints = 1 < 2` (designation `"0012"`, chord 1)
the function does not fail with any error; it returns a single degenerate
all-zero row. -/
theorem C5_counterexample :
    naca_four_digit_series (.str "0012") 1 1 = .ok [zeroPoint] := by
  rw [naca_0012_run (by norm_num) 1]
  norm_num [linspace, List.range_succ, zeroPoint, yt_at_x_zero]

/-- C5 amended: the reference code does not guard `numPoints`; for every
chord `≥ 0`, `numPoints = 0` yields an empty output and `numPoints = 1` a
single degenerate row at the leading edge, with no `InvalidPointCount`
error. -/
theorem C5_no_point_count_guard {chord : ℚ} (hc : 0 ≤ chord) :
    naca_four_digit_series (.str "0012") chord 0 = .ok [] ∧
      naca_four_digit_series (.str "0012") chord 1 = .ok [zeroPoint] := by
  constructor
  · rw [naca_0012_run hc 0]
    norm_num [linspace]
  · rw [naca_0012_run hc 1]
    norm_num [linspace, List.range_succ, zeroPoint, yt_at_x_zero]

/-- Witness for C5 amended at chord 1. -/
theorem C5_no_point_count_guard_witness :
    naca_four_digit_series (.str "0012") 1 0 = .ok [] ∧
      naca_four_digit_series (.str "0012") 1 1 = .ok [zeroPoint] :=
  C5_no_point_count_guard (by norm_num)

/-- C6: for designation `"0012"` and every chord (≥ 0) and point count, the
run succeeds and every station of the output satisfies
`yUpper = -yLower` and `xUpper = xLower`. -/
theorem C6_symmetric_mirror_0012 {chord : ℚ} (hc : 0 ≤ chord) (n : ℕ) :
    ∃ rows, naca_four_digit_series (.str "0012") chord n = .ok rows ∧
      ∀ pt ∈ rows, pt.yUpper = -pt.yLower ∧ pt.xUpper = pt.xLower := by
  refine ⟨_, naca_0012_run hc n, ?_⟩
  intro pt hpt
  simp only [List.mem_map] at hpt
  obtain ⟨x, _, rfl⟩ := hpt
  exact ⟨by simp, rfl⟩

/-- Witness for C6 at chord 1, two stations. -/
theorem C6_symmetric_mirror_0012_witness :
    ∃ rows, naca_four_digit_series (.str "0012") 1 2 = .ok rows ∧
      ∀ pt ∈ rows, pt.yUpper = -pt.yLower ∧ pt.xUpper = pt.xLower :=
  C6_symmetric_mirror_0012 (by norm_num) 2

/-- C7: for every valid four-digit designation `d1 d2 d3 d4` and every chord,
the function derives `maxCamber = (d1/100)·chord`,
`camberPosition = (d2/10)·chord` and
`maxThickness = ((10·d3 + d4)/100)·chord` and hands exactly these to the
coordinate computation. -/
theorem C7_parameter_derivation (c0 c1 c2 c3 : Char) (h0 : c0.isDigit = true)
    (h1 : c1.isDigit = true) (h2 : c2.isDigit = true) (h3 : c3.isDigit = true)
    (chord : ℚ) (n : ℕ) :
    naca_four_digit_series (.str ⟨[c0, c1, c2, c3]⟩) chord n =
      computeAirfoil ((charVal c0 : ℚ) / 100 * chord)
        ((charVal c1 : ℚ) / 10 * chord)
        (((10 * charVal c2 + charVal c3 : ℕ) : ℚ) / 100 * chord) chord n :=
  naca_run_of_digits (.str ⟨[c0, c1, c2, c3]⟩) c0 c1 c2 c3 rfl h0 h1 h2 h3
    chord n

/-- Witness for C7 at the source's example `"2317"`, chord 2:
`m = 2/100·2`, `p = 3/10·2`, `t = 17/100·2`. -/
theorem C7_parameter_derivation_witness :
    naca_four_digit_series (.str "2317") 2 50 =
      computeAirfoil ((2 : ℚ) / 100 * 2) ((3 : ℚ) / 10 * 2)
        ((17 : ℚ) / 100 * 2) 2 50 := by
  have h := C7_parameter_derivation '2' '3' '1' '7' (by decide) (by decide)
    (by decide) (by decide) 2 50
  simpa [show charVal '2' = 2 from rfl, show charVal '3' = 3 from rfl,
    show charVal '1' = 1 from rfl, show charVal '7' = 7 from rfl,
    show (⟨['2', '3', '1', '7']⟩ : String) = "2317" from rfl] using h

/-- C9: when the second digit is `'0'` (so `camberPosition = 0`) and
`chord > 0`, the guard `x < camberPosition` is false at every station, so
the `m/p²` branch is never executed, no division by zero is performed, and
the whole run succeeds. -/
theorem C9_zero_camber_position_branch_unreachable (c0 c2 c3 : Char)
    (h0 : c0.isDigit = true) (h2 : c2.isDigit = true) (h3 : c3.isDigit = true)
    {chord : ℚ} (hc : 0 < chord) (n : ℕ) :
    (∀ x ∈ linspace chord n, ¬x < (charVal '0' : ℚ) / 10 * chord) ∧
      ∃ rows, naca_four_digit_series (.str ⟨[c0, '0', c2, c3]⟩) chord n =
        .ok rows := by
  have hp0 : (charVal '0' : ℚ) / 10 * chord = 0 := by
    norm_num [show charVal '0' = 0 from rfl]
  constructor
  · intro x hx
    rw [hp0]
    exact not_lt.mpr (linspace_nonneg hc.le n x hx)
  · rw [naca_run_of_digits (.str ⟨[c0, '0', c2, c3]⟩) c0 '0' c2 c3 rfl h0
      (by decide) h2 h3, hp0]
    exact ⟨_, computeAirfoil_run _ 0 _ hc.le (by norm_num) n⟩

/-- Witness for C9 at designation `"1012"`, chord 1, three stations. -/
theorem C9_zero_camber_position_branch_unreachable_witness :
    (∀ x ∈ linspace 1 3, ¬x < (charVal '0' : ℚ) / 10 * 1) ∧
      ∃ rows, naca_four_digit_series (.str ⟨['1', '0', '1', '2']⟩) 1 3 =
        .ok rows :=
  C9_zero_camber_position_branch_unreachable '1' '1' '2' (by decide)
    (by decide) (by decide) (by norm_num) 3

/-- C1 counterexample: for designation `"1012"` (valid, second digit 0) at
chord 1 the code does evaluate the literal `else` branch: at station `x = 0`
the camber ordinate is `1/100 ≠ 0` and at station `x = 1` the camber slope is
`-1/50 ≠ 0`, not the flat camber line the claim asserts. -/
theorem C1_counterexample :
    yc_at ((1 : ℚ) / 100) 0 0 = .ok (1 / 100) ∧
      dyc_at ((1 : ℚ) / 100) 0 1 = .ok (-(1 / 50)) ∧
      ¬((1 : ℚ) / 100 = 0 ∧ -((1 : ℚ) / 50) = 0) := by
  refine ⟨by norm_num [yc_at], by norm_num [dyc_at], by norm_num⟩

/-- C1 amended: when BOTH camber digits are `'0'` (so the derived
`maxCamber` and `camberPosition` are 0 for every chord), the camber ordinate
and the camber slope computed by the code are 0 at every station. -/
theorem C1_flat_camber_needs_both_camber_digits_zero {chord : ℚ}
    (hc : 0 ≤ chord) (n : ℕ) :
    ∀ x ∈ linspace chord n,
      yc_at ((charVal '0' : ℚ) / 100 * chord)
          ((charVal '0' : ℚ) / 10 * chord) x = .ok 0 ∧
        dyc_at ((charVal '0' : ℚ) / 100 * chord)
          ((charVal '0' : ℚ) / 10 * chord) x = .ok 0 := by
  intro x hx
  have hx0 : 0 ≤ x := linspace_nonneg hc n x hx
  norm_num [show charVal '0' = 0 from rfl]
  constructor
  · rw [yc_at_eq_ok 0 hx0 (by norm_num)]
    rw [ycQ_m_zero]
  · rw [dyc_at_eq_ok 0 hx0 (by norm_num)]
    rw [dycQ_m_zero]

/-- Witness for C1 amended at chord 1, station `x = 0` of two. -/
theorem C1_flat_camber_needs_both_camber_digits_zero_witness :
    yc_at ((charVal '0' : ℚ) / 100 * 1) ((charVal '0' : ℚ) / 10 * 1) 0 =
        .ok 0 ∧
      dyc_at ((charVal '0' : ℚ) / 100 * 1) ((charVal '0' : ℚ) / 10 * 1) 0 =
        .ok 0 :=
  C1_flat_camber_needs_both_camber_digits_zero (by norm_num) 2 0
    (by norm_num [linspace, List.range_succ])

/-- C2 counterexample: for the valid designation `"1012"` (first digit
nonzero, second digit 0) at chord 1 the first output row has
`yUpper = 1/100 ≠ 0`: the leading edge does not pinch to a point. -/
theorem C2_counterexample :
    ((rowsOf (naca_four_digit_series (.str "1012") 1 2)).getD 0
        zeroPoint).yUpper ≠ 0 := by
  have hrun : naca_four_digit_series (.str "1012") 1 2 =
      computeAirfoil (1 / 100) 0 (12 / 100) 1 2 := by
    have h := naca_run_of_digits (.str "1012") '1' '0' '1' '2' rfl (by decide)
      (by decide) (by decide) (by decide) 1 2
    simpa [show charVal '1' = 1 from rfl, show charVal '0' = 0 from rfl,
      show charVal '2' = 2 from rfl] using h
  rw [hrun, computeAirfoil_run (1 / 100) 0 (12 / 100) (by norm_num)
    (by norm_num) 2, rowsOf_ok,
    show linspace 1 2 = [0, 1] from by norm_num [linspace, List.range_succ]]
  norm_num [mkPoint, ycQ, dycQ, yt_at_x_zero]

/-- C2 amended: for every valid designation whose first digit is `'0'` or
whose second digit is nonzero, every chord `> 0` and every successful run
with at least one station, the first output row is `(0, 0, 0, 0)`. -/
theorem C2_leading_edge_pinch (c0 c1 c2 c3 : Char) (h0 : c0.isDigit = true)
    (h1 : c1.isDigit = true) (h2 : c2.isDigit = true) (h3 : c3.isDigit = true)
    {chord : ℚ} (hc : 0 < chord)
    (hcam : charVal c0 = 0 ∨ charVal c1 ≠ 0) {n : ℕ} (hn : 1 ≤ n)
    {rows : List SurfPoint}
    (hrun : naca_four_digit_series (.str ⟨[c0, c1, c2, c3]⟩) chord n =
      .ok rows) :
    rows.head? = some zeroPoint := by
  rw [naca_run_of_digits (.str ⟨[c0, c1, c2, c3]⟩) c0 c1 c2 c3 rfl h0 h1 h2 h3
    chord n] at hrun
  obtain ⟨k, rfl⟩ : ∃ k, n = k + 1 := ⟨n - 1, by omega⟩
  obtain ⟨rest, hls⟩ := linspace_eq_cons chord k
  obtain ⟨ycs, dycs, hyc, hdyc, hrows⟩ := computeAirfoil_ok_inv hrun
  rw [hls] at hyc hdyc hrows
  obtain ⟨y0, ys, hy0, -, rfl⟩ := mapExcept_cons_ok hyc
  obtain ⟨d0, ds, hd0, -, rfl⟩ := mapExcept_cons_ok hdyc
  have hy00 : y0 = 0 := by
    refine yc_at_station_zero hy0 ?_
    rcases hcam with h | h
    · exact Or.inl (by norm_num [h])
    · refine Or.inr ?_
      have h1le : (1 : ℚ) ≤ (charVal c1 : ℚ) := by
        exact_mod_cast Nat.one_le_iff_ne_zero.mpr h
      positivity
  subst hy00
  simp only [hrows, List.zip_cons_cons, List.zipWith_cons_cons, List.head?]
  rw [mkPoint_station_zero]

/-- Witness for C2 amended at designation `"0012"`, chord 1, one station. -/
theorem C2_leading_edge_pinch_witness :
    ([zeroPoint] : List SurfPoint).head? = some zeroPoint := by
  have h0012 : naca_four_digit_series
      (.str ⟨['0', '0', '1', '2']⟩) 1 1 = .ok [zeroPoint] := by
    rw [show (⟨['0', '0', '1', '2']⟩ : String) = "0012" from rfl,
      naca_0012_run (by norm_num) 1]
    norm_num [linspace, List.range_succ, zeroPoint, yt_at_x_zero]
  exact C2_leading_edge_pinch '0' '0' '1' '2' (by decide) (by decide)
    (by decide) (by decide) (by norm_num) (Or.inl rfl) (by norm_num) h0012

/-- C3 counterexample: for designation `"0012"` with two stations, the
trailing-edge `yUpper` at chord 2 is not twice the trailing-edge `yUpper` at
chord 1 (it is even negative, while twice the chord-1 value is positive):
the output is not homogeneous of degree 1 in chord. -/
theorem C3_counterexample :
    ((rowsOf (naca_four_digit_series (.str "0012") 2 2)).getD 1
        zeroPoint).yUpper ≠
      2 * ((rowsOf (naca_four_digit_series (.str "0012") 1 2)).getD 1
        zeroPoint).yUpper := by
  rw [naca_0012_run (by norm_num : (0 : ℚ) ≤ 2) 2, rowsOf_ok,
    naca_0012_run (by norm_num : (0 : ℚ) ≤ 1) 2, rowsOf_ok,
    show linspace 2 2 = [0, 2] from by norm_num [linspace, List.range_succ],
    show linspace 1 2 = [0, 1] from by norm_num [linspace, List.range_succ]]
  have hs : Real.sqrt 2 < 1.5 := by
    refine (Real.sqrt_lt' (by norm_num)).mpr (by norm_num)
  have hs0 : (0 : ℝ) ≤ Real.sqrt 2 := Real.sqrt_nonneg 2
  simp only [List.map_cons, List.map_nil, List.getD_cons_succ, List.getD_cons_zero]
  unfold yt_at
  push_cast
  rw [Real.sqrt_one]
  intro h
  nlinarith [hs, hs0]

/-- C3 amended: the x-stations themselves scale exactly with chord, and for
the zero-camber zero-thickness designation `"0000"` (where the calibration
caveats vanish) doubling the chord doubles every output coordinate. -/
theorem C3_chord_scaling_zero_camber_zero_thickness {c : ℚ} (hc : 0 ≤ c)
    (n : ℕ) :
    linspace (2 * c) n = (linspace c n).map (fun x => 2 * x) ∧
      ∃ rows, naca_four_digit_series (.str "0000") c n = .ok rows ∧
        naca_four_digit_series (.str "0000") (2 * c) n =
          .ok (rows.map fun pt =>
            ⟨2 * pt.xUpper, 2 * pt.yUpper, 2 * pt.xLower, 2 * pt.yLower⟩) := by
  refine ⟨linspace_two_smul c n, _, naca_0000_run hc n, ?_⟩
  rw [naca_0000_run (by linarith) n, linspace_two_smul, List.map_map,
    List.map_map]
  refine congrArg Except.ok (List.map_congr_left fun x _ => ?_)
  simp only [Function.comp]
  push_cast
  norm_num

/-- Witness for C3 amended at chord 1, two stations. -/
theorem C3_chord_scaling_zero_camber_zero_thickness_witness :
    linspace (2 * 1) 2 = (linspace 1 2).map (fun x => 2 * x) ∧
      ∃ rows, naca_four_digit_series (.str "0000") 1 2 = .ok rows ∧
        naca_four_digit_series (.str "0000") (2 * 1) 2 =
          .ok (rows.map fun pt =>
            ⟨2 * pt.xUpper, 2 * pt.yUpper, 2 * pt.xLower, 2 * pt.yLower⟩) :=
  C3_chord_scaling_zero_camber_zero_thickness (by norm_num) 2

/-- C8 counterexample: the valid designation `"0112"` at chord 10 has
`camberPosition = 1`, so the second camber branch divides by zero and the
whole run raises `ZeroDivisionError` instead of producing `numPoints`
rows. -/
theorem C8_counterexample :
    naca_four_digit_series (.str "0112") 10 2 =
      .error .zeroDivisionError := by
  have h := naca_run_of_digits (.str "0112") '0' '1' '1' '2' rfl (by decide)
    (by decide) (by decide) (by decide) 10 2
  rw [h]
  norm_num [computeAirfoil, mapExcept, yc_at,
    show linspace 10 2 = [0, 10] from by norm_num [linspace, List.range_succ],
    show charVal '0' = 0 from rfl, show charVal '1' = 1 from rfl,
    show charVal '2' = 2 from rfl]

/-- C8 amended: for every valid designation, chord > 0 and numPoints ≥ 2
such that the derived `camberPosition` is not 1 (the division-by-zero case
shown in the counterexample), the run succeeds with exactly `numPoints`
rows, and the underlying x-stations start at 0, end at `chord`, are
uniformly spaced with step `chord/(numPoints-1)`, and are monotonically
non-decreasing. -/
theorem C8_output_shape_and_stations (c0 c1 c2 c3 : Char)
    (h0 : c0.isDigit = true) (h1 : c1.isDigit = true)
    (h2 : c2.isDigit = true) (h3 : c3.isDigit = true) {chord : ℚ}
    (hc : 0 < chord) {n : ℕ} (hn : 2 ≤ n)
    (hp : (charVal c1 : ℚ) / 10 * chord ≠ 1) :
    ∃ rows, naca_four_digit_series (.str ⟨[c0, c1, c2, c3]⟩) chord n =
        .ok rows ∧
      rows.length = n ∧
      (linspace chord n).getD 0 0 = 0 ∧
      (linspace chord n).getD (n - 1) 0 = chord ∧
      (∀ i, i + 1 < n →
        (linspace chord n).getD (i + 1) 0 - (linspace chord n).getD i 0 =
          chord / ((n : ℚ) - 1)) ∧
      List.Pairwise (· ≤ ·) (linspace chord n) := by
  have hd : (0 : ℚ) < (n : ℚ) - 1 := by
    have h2n : (2 : ℚ) ≤ (n : ℚ) := by exact_mod_cast hn
    linarith
  have hrun : naca_four_digit_series (.str ⟨[c0, c1, c2, c3]⟩) chord n =
      .ok ((linspace chord n).map fun x =>
        mkPoint (((10 * charVal c2 + charVal c3 : ℕ) : ℚ) / 100 * chord) x
          (ycQ ((charVal c0 : ℚ) / 100 * chord)
            ((charVal c1 : ℚ) / 10 * chord) x)
          (dycQ ((charVal c0 : ℚ) / 100 * chord)
            ((charVal c1 : ℚ) / 10 * chord) x)) := by
    rw [naca_run_of_digits (.str ⟨[c0, c1, c2, c3]⟩) c0 c1 c2 c3 rfl h0 h1 h2
      h3]
    exact computeAirfoil_run _ _ _ hc.le hp n
  refine ⟨_, hrun, ?_, ?_, ?_, ?_, ?_⟩
  · rw [List.length_map, linspace_length]
  · rw [linspace_getD chord (by omega : 0 < n)]
    norm_num
  · rw [linspace_getD chord (by omega : n - 1 < n),
      Nat.cast_sub (by omega : 1 ≤ n), Nat.cast_one, mul_div_assoc,
      div_self (ne_of_gt hd), mul_one]
  · intro i hi
    rw [linspace_getD chord (by omega : i + 1 < n),
      linspace_getD chord (by omega : i < n), div_sub_div_same]
    congr 1
    push_cast
    ring
  · have hmono : ∀ a b : ℕ, a < b →
        chord * (a : ℚ) / ((n : ℚ) - 1) ≤ chord * (b : ℚ) / ((n : ℚ) - 1) := by
      intro a b hab
      have hab2 : (a : ℚ) ≤ (b : ℚ) := by exact_mod_cast hab.le
      have h1ab : chord * (a : ℚ) ≤ chord * (b : ℚ) :=
        mul_le_mul_of_nonneg_left hab2 hc.le
      exact div_le_div_of_nonneg_right h1ab hd.le
    unfold linspace
    exact List.Pairwise.map _ (fun a b h => hmono a b h)
      (List.pairwise_lt_range n)

/-- Witness for C8 amended at designation `"2317"`, chord 1, three
stations. -/
theorem C8_output_shape_and_stations_witness :
    ∃ rows, naca_four_digit_series (.str ⟨['2', '3', '1', '7']⟩) 1 3 =
        .ok rows ∧
      rows.length = 3 ∧
      (linspace 1 3).getD 0 0 = 0 ∧
      (linspace 1 3).getD (3 - 1) 0 = 1 ∧
      (∀ i, i + 1 < 3 →
        (linspace 1 3).getD (i + 1) 0 - (linspace 1 3).getD i 0 =
          1 / (((3 : ℕ) : ℚ) - 1)) ∧
      List.Pairwise (· ≤ ·) (linspace 1 3) :=
  C8_output_shape_and_stations '2' '3' '1' '7' (by decide) (by decide)
    (by decide) (by decide) (by norm_num) (by norm_num)
    (by norm_num [show charVal '3' = 3 from rfl])

lemma String_data_mk (l : List Char) : (⟨l⟩ : String).data = l := rfl

lemma natToChars_length_le_three {k : ℕ} (hk : k ≤ 999) :
    (natToChars k).length ≤ 3 := by
  unfold natToChars
  by_cases h0 : k = 0
  · simp [h0]
  · rw [if_neg h0, List.length_map, List.length_reverse,
      Nat.digits_len 10 k (by norm_num) h0]
    have hpow : (10 : ℕ) ^ 3 = 1000 := by norm_num
    have hlog : Nat.log 10 k < 3 :=
      (Nat.lt_pow_iff_log_lt (by norm_num) h0).mp (by omega)
    omega

lemma natToChars_length_four {k : ℕ} (h1 : 1000 ≤ k) (h2 : k ≤ 9999) :
    (natToChars k).length = 4 := by
  unfold natToChars
  rw [if_neg (by omega), List.length_map, List.length_reverse,
    Nat.digits_len 10 k (by norm_num) (by omega)]
  have hpow3 : (10 : ℕ) ^ 3 = 1000 := by norm_num
  have hpow4 : (10 : ℕ) ^ (3 + 1) = 10000 := by norm_num
  rw [Nat.log_eq_of_pow_le_of_lt_pow (show 10 ^ 3 ≤ k by omega)
    (show k < 10 ^ (3 + 1) by omega)]

lemma natToChars_length_ge_five {k : ℕ} (h : 10000 ≤ k) :
    5 ≤ (natToChars k).length := by
  unfold natToChars
  rw [if_neg (by omega), List.length_map, List.length_reverse,
    Nat.digits_len 10 k (by norm_num) (by omega)]
  have hpow : (10 : ℕ) ^ 4 = 10000 := by norm_num
  have hlog : 4 ≤ Nat.log 10 k :=
    (Nat.pow_le_iff_le_log (by norm_num) (by omega)).mp (by omega)
  omega

lemma digits_four {k : ℕ} (h1 : 1000 ≤ k) (h2 : k ≤ 9999) :
    ∃ e0 e1 e2 e3, Nat.digits 10 k = [e0, e1, e2, e3] ∧
      e0 < 10 ∧ e1 < 10 ∧ e2 < 10 ∧ e3 < 10 := by
  have hlen : (Nat.digits 10 k).length = 4 := by
    rw [Nat.digits_len 10 k (by norm_num) (by omega)]
    have hpow3 : (10 : ℕ) ^ 3 = 1000 := by norm_num
    have hpow4 : (10 : ℕ) ^ (3 + 1) = 10000 := by norm_num
    rw [Nat.log_eq_of_pow_le_of_lt_pow (show 10 ^ 3 ≤ k by omega)
      (show k < 10 ^ (3 + 1) by omega)]
  obtain ⟨e0, l1, hl1⟩ := List.exists_of_length_succ _ hlen
  have hlen1 : l1.length = 3 := by
    have := hlen
    rw [hl1] at this
    simpa using this
  obtain ⟨e1, l2, hl2⟩ := List.exists_of_length_succ _ hlen1
  have hlen2 : l2.length = 2 := by
    have := hlen1
    rw [hl2] at this
    simpa using this
  obtain ⟨e2, l3, hl3⟩ := List.exists_of_length_succ _ hlen2
  have hlen3 : l3.length = 1 := by
    have := hlen2
    rw [hl3] at this
    simpa using this
  obtain ⟨e3, l4, hl4⟩ := List.exists_of_length_succ _ hlen3
  have hlen4 : l4 = [] := by
    have := hlen3
    rw [hl4] at this
    simpa using List.eq_nil_of_length_eq_zero (by simpa using this)
  have hds : Nat.digits 10 k = [e0, e1, e2, e3] := by
    rw [hl1, hl2, hl3, hl4, hlen4]
  refine ⟨e0, e1, e2, e3, hds, ?_, ?_, ?_, ?_⟩ <;>
    exact Nat.digits_lt_base (by norm_num) (by rw [hds]; simp)

lemma naca_int_nonneg_normalize {k : ℤ} (hk : 0 ≤ k) :
    normalizeInput (.int k) = ⟨natToChars k.natAbs⟩ := by
  simp [normalizeInput, intToString, not_lt.mpr hk]

lemma intInput_chars {k : ℤ} (h1 : 1000 ≤ k) (h2 : k ≤ 9999) :
    ∃ e0 e1 e2 e3 : ℕ, e0 < 10 ∧ e1 < 10 ∧ e2 < 10 ∧ e3 < 10 ∧
      (normalizeInput (.int k)).data =
        [Char.ofNat (48 + e3), Char.ofNat (48 + e2),
         Char.ofNat (48 + e1), Char.ofNat (48 + e0)] := by
  obtain ⟨e0, e1, e2, e3, hds, he0, he1, he2, he3⟩ :=
    digits_four (k := k.natAbs) (by omega) (by omega)
  refine ⟨e0, e1, e2, e3, he0, he1, he2, he3, ?_⟩
  rw [naca_int_nonneg_normalize (by omega), String_data_mk]
  unfold natToChars
  rw [if_neg (by omega), hds]
  rfl

lemma naca_int_ok {k : ℤ} (h1 : 1000 ≤ k) (h2 : k ≤ 9999) (n : ℕ) :
    ∃ rows, naca_four_digit_series (.int k) 1 n = .ok rows := by
  obtain ⟨e0, e1, e2, e3, he0, he1, he2, he3, hdata⟩ := intInput_chars h1 h2
  rw [naca_run_of_digits (.int k) _ _ _ _ hdata (charOfDigit_isDigit he3)
    (charOfDigit_isDigit he2) (charOfDigit_isDigit he1)
    (charOfDigit_isDigit he0) 1 n]
  refine ⟨_, computeAirfoil_run _ _ _ (by norm_num) ?_ n⟩
  rw [charVal_charOfDigit he2, mul_one]
  intro hq
  rw [div_eq_one_iff_eq (by norm_num)] at hq
  have he : e2 = 10 := by exact_mod_cast hq
  omega

lemma naca_dash_first {input : NacaInput} {c1 c2 c3 : Char} (chord : ℚ)
    (n : ℕ) (hdata : (normalizeInput input).data = ['-', c1, c2, c3]) :
    naca_four_digit_series input chord n = .error .valueError := by
  unfold naca_four_digit_series
  rw [hdata]
  rfl

lemma naca_int_neg_err {k : ℤ} (hk : k < 0) (chord : ℚ) (n : ℕ)
    (rows : List SurfPoint) :
    naca_four_digit_series (.int k) chord n ≠ .ok rows := by
  have hdata : (normalizeInput (.int k)).data = '-' :: natToChars k.natAbs := by
    simp only [normalizeInput, intToString, if_pos hk]
  by_cases h4 : (natToChars k.natAbs).length = 3
  · obtain ⟨c1, l1, hl1⟩ := List.exists_of_length_succ _ h4
    have hlen1 : l1.length = 2 := by
      have := h4
      rw [hl1] at this
      simpa using this
    obtain ⟨c2, l2, hl2⟩ := List.exists_of_length_succ _ hlen1
    have hlen2 : l2.length = 1 := by
      have := hlen1
      rw [hl2] at this
      simpa using this
    obtain ⟨c3, l3, hl3⟩ := List.exists_of_length_succ _ hlen2
    have hlen3 : l3 = [] := by
      have := hlen2
      rw [hl3] at this
      simpa using List.eq_nil_of_length_eq_zero (by simpa using this)
    intro hok
    rw [naca_dash_first chord n (by rw [hdata, hl1, hl2, hl3, hlen3])] at hok
    exact Except.noConfusion hok
  · have hlen : (normalizeInput (.int k)).length ≠ 4 := by
      show (normalizeInput (.int k)).data.length ≠ 4
      rw [hdata]
      simp only [List.length_cons]
      omega
    intro hok
    rw [naca_len_ne_four _ chord n hlen] at hok
    exact Except.noConfusion hok

/-- C10: an integer designation is normalized via its decimal string form
without zero-padding, so every integer `0 ≤ k ≤ 999` is rejected with fewer
than 4 digits, and (at the default chord 1 and numPoints 50) the function
accepts an integer designation exactly when it lies in `[1000, 9999]`;
hence a symmetric airfoil (leading zero) is only reachable via a string. -/
theorem C10_integer_designation_normalization :
    (∀ k : ℕ, k ≤ 999 →
      (normalizeInput (.int (k : ℤ))).length < 4 ∧
        naca_four_digit_series (.int (k : ℤ)) 1 50 =
          .error
            (.invalidDesignation (normalizeInput (.int (k : ℤ))).length)) ∧
    ∀ k : ℤ, (∃ rows, naca_four_digit_series (.int k) 1 50 = .ok rows) ↔
      1000 ≤ k ∧ k ≤ 9999 := by
  have hsmall : ∀ k : ℕ, k ≤ 999 →
      (normalizeInput (.int (k : ℤ))).length < 4 := by
    intro k hk
    rw [naca_int_nonneg_normalize (by omega)]
    show (natToChars ((k : ℤ)).natAbs).length < 4
    have habs : ((k : ℤ)).natAbs = k := Int.natAbs_ofNat k
    rw [habs]
    have := natToChars_length_le_three hk
    omega
  refine ⟨fun k hk => ⟨hsmall k hk,
    naca_len_ne_four _ 1 50 (by have := hsmall k hk; omega)⟩, ?_⟩
  intro k
  constructor
  · rintro ⟨rows, hrows⟩
    by_contra hcon
    push_neg at hcon
    rcases lt_or_ge k 1000 with hlt | hge
    · rcases lt_or_ge k 0 with hneg | hnn
      · exact naca_int_neg_err hneg 1 50 rows hrows
      · have hke : k = ((k.toNat : ℕ) : ℤ) := (Int.toNat_of_nonneg hnn).symm
        rw [hke] at hrows
        have hne : (normalizeInput (.int ((k.toNat : ℕ) : ℤ))).length ≠ 4 := by
          have := hsmall k.toNat (by omega)
          omega
        rw [naca_len_ne_four _ 1 50 hne] at hrows
        exact Except.noConfusion hrows
    · have hk10 : 10000 ≤ k := by
        have := hcon hge
        omega
      have hne : (normalizeInput (.int k)).length ≠ 4 := by
        rw [naca_int_nonneg_normalize (by omega)]
        show (natToChars k.natAbs).length ≠ 4
        have := natToChars_length_ge_five (k := k.natAbs) (by omega)
        omega
      rw [naca_len_ne_four _ 1 50 hne] at hrows
      exact Except.noConfusion hrows
  · rintro ⟨h1, h2⟩
    exact naca_int_ok h1 h2 50

/-- Witness for C10: integer `12` is rejected with 2 digits reported, and
integer `1234` is accepted. -/
theorem C10_integer_designation_normalization_witness :
    ((normalizeInput (.int (12 : ℤ))).length < 4 ∧
      naca_four_digit_series (.int (12 : ℤ)) 1 50 =
        .error
          (.invalidDesignation (normalizeInput (.int (12 : ℤ))).length)) ∧
    ∃ rows, naca_four_digit_series (.int 1234) 1 50 = .ok rows := by
  constructor
  · have h := C10_integer_designation_normalization.1 12 (by norm_num)
    simpa using h
  · exact (C10_integer_designation_normalization.2 1234).mpr
      ⟨by norm_num, by norm_num⟩

section Sanity

example : intOfChars ['2'] = .ok 2 := by rfl
example : intOfChars ['1', '7'] = .ok 17 := by rfl
example : intOfChars ['-'] = .error .valueError := by rfl
example : intOfChars ['-', '3'] = .ok (-3) := by rfl
example : linspace 1 3 = [0, 1/2, 1] := by
  norm_num [linspace, List.range_succ]
example : linspace 1 1 = [0] := by norm_num [linspace, List.range_succ]
example : linspace 1 0 = [] := by norm_num [linspace]
example : yc_at (1/100) 0 0 = .ok (1/100) := by norm_num [yc_at]
example : yc_at 0 1 2 = .error .zeroDivisionError := by norm_num [yc_at]
example : ("0012" : String).data = ['0', '0', '1', '2'] := by rfl
example : (⟨['0', '0', '1', '2']⟩ : String) = "0012" := by rfl

end Sanity
